import Mathlib

/-!
Verification of the GhostFlow flow-execution engine.

This file gives a shallow embedding of the Rust sources
`crates/ghostflow-schema/src/{flow,execution}.rs`,
`crates/ghostflow-core/src/{error,traits}.rs` and
`crates/ghostflow-engine/src/{executor,runtime,scheduler}.rs`, and proves
properties of the embedded definitions.

Modelling conventions:
* `serde_json::Value` becomes the inductive `Json` (numbers as `Int`; no claim
  touches float arithmetic).
* `HashMap<String, V>` becomes an association list `List (String × V)`.
  Its representation invariant (distinct keys) and iteration order are made
  explicit: theorems that depend on the map structure of `Flow.nodes` assume
  `Flow.WellFormed`, and `keys().last()` / iteration order are modelled by the
  list order, one admissible ordering of the source's `HashMap`.
* `async fn` bodies contain no real concurrency in the engine besides
  `join_all` over one batch, which is order-preserving on results; they are
  embedded as pure functions.  The list of batches handed to `join_all` is
  recorded as an explicit trace component.
* `Uuid::new_v4()`, `chrono::Utc::now()` and `Instant::elapsed` are
  nondeterministic inputs; they are passed in as explicit arguments.
* Rust `unwrap()` on map lookups can panic on flows violating the spec's
  invariant I1 (edge endpoints exist in `nodes`).  The embedding totalises
  those lookups with defaults; every theorem about the executor therefore
  carries a `Flow.WellFormed` hypothesis, under which the defaults are
  provably never reached.
-/

namespace GhostFlow

/-- Embedding of `serde_json::Value`. -/
inductive Json where
  | null : Json
  | bool (b : Bool) : Json
  | num (n : Int) : Json
  | str (s : String) : Json
  | arr (xs : List Json) : Json
  | obj (fields : List (String × Json)) : Json

/-- Key lookup in an association list, the embedding of `HashMap::get`. -/
def lookupKey {α : Type} (m : List (String × α)) (k : String) : Option α :=
  (m.find? (fun kv => kv.1 == k)).map (fun kv => kv.2)

/-- Key membership, the embedding of `HashMap::contains_key`. -/
def containsKey {α : Type} (m : List (String × α)) (k : String) : Bool :=
  m.any (fun kv => kv.1 == k)

/-- Insertion, the embedding of `HashMap::insert`: replaces the value under an
existing key, otherwise appends the new binding. -/
def insertKey {α : Type} (m : List (String × α)) (k : String) (v : α) :
    List (String × α) :=
  if containsKey m k then
    m.map (fun kv => if kv.1 == k then (k, v) else kv)
  else
    m ++ [(k, v)]

/-- `schema/flow.rs`: `RetryConfig`.  `backoff_multiplier` is an `f64` in the
source; it is carried as an `Int` here because no code path ever reads it. -/
structure RetryConfig where
  max_attempts : Nat
  delay_ms : Nat
  backoff_multiplier : Int
  max_delay_ms : Nat
deriving DecidableEq

/-- `schema/flow.rs`: `NodePosition` (editor metadata, `f64` in the source,
never interpreted by the engine). -/
structure NodePosition where
  x : Int
  y : Int
deriving DecidableEq

/-- `schema/flow.rs`: `FlowNode`. -/
structure FlowNode where
  id : String
  node_type : String
  name : String
  description : Option String
  parameters : List (String × Json)
  position : NodePosition
  retry_config : Option RetryConfig
  timeout_ms : Option Nat

/-- `schema/flow.rs`: `FlowEdge`. -/
structure FlowEdge where
  id : String
  source_node : String
  target_node : String
  source_port : Option String
  target_port : Option String
  condition : Option String
deriving DecidableEq

/-- `schema/flow.rs`: `TriggerType`. -/
inductive TriggerType where
  | webhook (path method : String) : TriggerType
  | cron (expression : String) (timezone : Option String) : TriggerType
  | manual : TriggerType
deriving DecidableEq

/-- `schema/flow.rs`: `FlowTrigger`. -/
structure FlowTrigger where
  id : String
  trigger_type : TriggerType
  config : List (String × Json)
  enabled : Bool

/-- `schema/flow.rs`: `ParameterType`, re-exported by the crate as
`FlowParameterType` (that name is used here so that `ParameterType` can keep
naming the `node.rs` enum, as in the crate root). -/
inductive FlowParameterType where
  | string | number | boolean | object | array | secret
deriving DecidableEq

/-- `schema/flow.rs`: `FlowParameter`. -/
structure FlowParameter where
  name : String
  param_type : FlowParameterType
  description : Option String
  default_value : Option Json
  required : Bool

/-- `schema/flow.rs`: `FlowMetadata` (timestamps as abstract `Nat`). -/
structure FlowMetadata where
  created_at : Nat
  updated_at : Nat
  created_by : String
  tags : List String
  category : Option String

/-- `schema/flow.rs`: `Flow` (`id : Uuid` as `Nat`). -/
structure Flow where
  id : Nat
  name : String
  description : Option String
  version : String
  nodes : List (String × FlowNode)
  edges : List FlowEdge
  triggers : List FlowTrigger
  parameters : List (String × FlowParameter)
  secrets : List String
  metadata : FlowMetadata

/-- The node ids of a flow, in map-iteration order (`flow.nodes.keys()`). -/
def Flow.keys (f : Flow) : List String :=
  f.nodes.map Prod.fst

/-- Representation invariant of `Flow.nodes` as a `HashMap` (distinct keys)
together with the spec's invariant I1 (every edge endpoint is a node id).
Rust panics on `unwrap()` for flows violating I1; executor theorems are
stated under this hypothesis. -/
def Flow.WellFormed (f : Flow) : Prop :=
  f.keys.Nodup ∧ ∀ e ∈ f.edges, e.source_node ∈ f.keys ∧ e.target_node ∈ f.keys

instance (f : Flow) : Decidable f.WellFormed := by
  unfold Flow.WellFormed
  infer_instance

/-- `core/error.rs`: `GhostFlowError` (the `#[from]` payloads of the database,
serialization and io variants are carried as their rendered messages). -/
inductive GhostFlowError where
  | validationError (message : String) : GhostFlowError
  | nodeExecutionError (node_id message : String) : GhostFlowError
  | flowExecutionError (flow_id message : String) : GhostFlowError
  | configurationError (message : String) : GhostFlowError
  | databaseError (message : String) : GhostFlowError
  | serializationError (message : String) : GhostFlowError
  | ioError (message : String) : GhostFlowError
  | networkError (message : String) : GhostFlowError
  | authenticationError (message : String) : GhostFlowError
  | authorizationError (message : String) : GhostFlowError
  | timeoutError (timeout_ms : Nat) : GhostFlowError
  | rateLimitError (message : String) : GhostFlowError
  | notFoundError (resource_type id : String) : GhostFlowError
  | internalError (message : String) : GhostFlowError
deriving DecidableEq

/-- The `thiserror` `Display` implementation on `GhostFlowError`
(`error.to_string()` in `executor.rs`). -/
def GhostFlowError.render : GhostFlowError → String
  | .validationError message => "Flow validation error: " ++ message
  | .nodeExecutionError node_id message =>
      "Node execution error: " ++ node_id ++ " - " ++ message
  | .flowExecutionError flow_id message =>
      "Flow execution error: " ++ flow_id ++ " - " ++ message
  | .configurationError message => "Configuration error: " ++ message
  | .databaseError message => "Database error: " ++ message
  | .serializationError message => "Serialization error: " ++ message
  | .ioError message => "IO error: " ++ message
  | .networkError message => "Network error: " ++ message
  | .authenticationError message => "Authentication error: " ++ message
  | .authorizationError message => "Authorization error: " ++ message
  | .timeoutError timeout_ms =>
      "Timeout error: operation timed out after " ++ toString timeout_ms ++ "ms"
  | .rateLimitError message => "Rate limit exceeded: " ++ message
  | .notFoundError resource_type id =>
      "Resource not found: " ++ resource_type ++ " with id " ++ id
  | .internalError message => "Internal error: " ++ message

/-- `schema/execution.rs`: `ExecutionStatus`. -/
inductive ExecutionStatus where
  | pending | running | completed | failed | cancelled | retrying
deriving DecidableEq

/-- `schema/execution.rs`: `ErrorType`. -/
inductive ErrorType where
  | validationError | networkError | timeoutError | authenticationError
  | authorizationError | notFoundError | rateLimitError | internalError
  | userError
deriving DecidableEq

/-- `schema/execution.rs`: `ExecutionError`. -/
structure ExecutionError where
  error_type : ErrorType
  message : String
  details : Option (List (String × Json))
  retryable : Bool

/-- `schema/execution.rs`: `LogLevel`. -/
inductive LogLevel where
  | trace | debug | info | warn | error
deriving DecidableEq

/-- `schema/execution.rs`: `ExecutionLog`. -/
structure ExecutionLog where
  timestamp : Nat
  level : LogLevel
  message : String
  details : Option (List (String × Json))

/-- `schema/execution.rs`: `NodeExecution`. -/
structure NodeExecution where
  node_id : String
  status : ExecutionStatus
  input_data : Json
  output_data : Option Json
  error : Option ExecutionError
  started_at : Nat
  completed_at : Option Nat
  execution_time_ms : Option Nat
  retry_count : Nat
  logs : List ExecutionLog

/-- `schema/execution.rs`: `ExecutionTrigger`. -/
structure ExecutionTrigger where
  trigger_type : String
  source : Option String
  metadata : List (String × Json)

/-- `schema/execution.rs`: `ExecutionMetadata`. -/
structure ExecutionMetadata where
  executor_id : String
  environment : String
  correlation_id : Option String
  trace_id : Option String
  span_id : Option String

/-- `schema/execution.rs`: `FlowExecution` (uuids and timestamps as `Nat`). -/
structure FlowExecution where
  id : Nat
  flow_id : Nat
  flow_version : String
  status : ExecutionStatus
  trigger : ExecutionTrigger
  input_data : Json
  output_data : Option Json
  error : Option ExecutionError
  node_executions : List (String × NodeExecution)
  started_at : Nat
  completed_at : Option Nat
  execution_time_ms : Option Nat
  metadata : ExecutionMetadata

/-- `schema/execution.rs`: `ArtifactReference`. -/
structure ArtifactReference where
  id : Nat
  name : String
  content_type : String
  size_bytes : Nat
  storage_path : String
  checksum : String

/-- `schema/execution.rs`: `ExecutionContext`.  The source field `variables`
is spelled `vars` here because `variables` is a reserved word in Lean. -/
structure ExecutionContext where
  execution_id : Nat
  flow_id : Nat
  node_id : String
  input : Json
  vars : List (String × Json)
  secrets : List (String × String)
  artifacts : List (String × ArtifactReference)

/-- `schema/node.rs`: `NodeCategory`. -/
inductive NodeCategory where
  | trigger | action | transform | controlFlow | integration | ai | data | utility
deriving DecidableEq

/-- `schema/node.rs`: `DataType`. -/
inductive DataType where
  | any | string | number | boolean | object | array | binary | null
deriving DecidableEq

/-- `schema/node.rs`: `ParameterType`. -/
inductive ParameterType where
  | string | number | boolean | select | multiSelect | object | array | secret
  | file | code
deriving DecidableEq

/-- `schema/node.rs`: `ParameterValidation` (`f64` bounds as `Int`; never read
by the engine). -/
structure ParameterValidation where
  min_length : Option Nat
  max_length : Option Nat
  min_value : Option Int
  max_value : Option Int
  pattern : Option String

/-- `schema/node.rs`: `ParameterOption`. -/
structure ParameterOption where
  value : Json
  label : String

/-- `schema/node.rs`: `NodePort`. -/
structure NodePort where
  name : String
  display_name : String
  description : Option String
  data_type : DataType
  required : Bool

/-- `schema/node.rs`: `NodeParameter`. -/
structure NodeParameter where
  name : String
  display_name : String
  description : Option String
  param_type : ParameterType
  default_value : Option Json
  required : Bool
  options : Option (List ParameterOption)
  validation : Option ParameterValidation

/-- `schema/node.rs`: `NodeDefinition`. -/
structure NodeDefinition where
  id : String
  name : String
  description : String
  category : NodeCategory
  version : String
  inputs : List NodePort
  outputs : List NodePort
  parameters : List NodeParameter
  icon : Option String
  color : Option String

/-- `core/traits.rs`: an implementation of the `Node` trait (`Arc<dyn Node>`).
The async `validate`/`execute` methods are embedded as pure functions into
`Except`; `supports_retry` and `is_deterministic` default to `true` in the
trait. -/
structure NodeImpl where
  definition : NodeDefinition
  validate : ExecutionContext → Except GhostFlowError Unit
  execute : ExecutionContext → Except GhostFlowError Json
  supports_retry : Bool := true
  is_deterministic : Bool := true

/-- `core/traits.rs`: `BasicNodeRegistry`, the repository's only
`NodeRegistry` implementation. -/
structure BasicNodeRegistry where
  nodes : List (String × NodeImpl)

/-- `BasicNodeRegistry::new`. -/
def BasicNodeRegistry.new : BasicNodeRegistry :=
  { nodes := [] }

/-- `BasicNodeRegistry::register_node`: `self.nodes.insert(node_type, node);
Ok(())`.  The mutated registry is returned alongside the `Ok`. -/
def BasicNodeRegistry.registerNode (r : BasicNodeRegistry) (node_type : String)
    (node : NodeImpl) : Except GhostFlowError BasicNodeRegistry :=
  .ok { nodes := insertKey r.nodes node_type node }

/-- `BasicNodeRegistry::get_node`. -/
def BasicNodeRegistry.getNode (r : BasicNodeRegistry) (node_type : String) :
    Option NodeImpl :=
  lookupKey r.nodes node_type

/-- `BasicNodeRegistry::list_node_definitions`. -/
def BasicNodeRegistry.listNodeDefinitions (r : BasicNodeRegistry) :
    List NodeDefinition :=
  r.nodes.map (fun kv => kv.2.definition)

/-- `BasicNodeRegistry::validate_node_type`. -/
def BasicNodeRegistry.validateNodeType (r : BasicNodeRegistry)
    (node_type : String) : Bool :=
  containsKey r.nodes node_type

/-- `engine/executor.rs`: `FlowExecutor` (the trait object registry is
instantiated with `BasicNodeRegistry`). -/
structure FlowExecutor where
  node_registry : BasicNodeRegistry
  max_concurrent_nodes : Nat

/-- `FlowExecutor::new`: hard-codes `max_concurrent_nodes = 10`. -/
def FlowExecutor.new (node_registry : BasicNodeRegistry) : FlowExecutor :=
  { node_registry := node_registry, max_concurrent_nodes := 10 }

/-- In-degree of `v` in the edge list, as built by the first loops of
`build_execution_order`. -/
def initInDegree (flow : Flow) (v : String) : Nat :=
  (flow.edges.filter (fun e => e.target_node == v)).length

/-- Adjacency list of `u` (`adjacency[u]`), in edge order. -/
def adjacency (flow : Flow) (u : String) : List String :=
  (flow.edges.filter (fun e => e.source_node == u)).map (fun e => e.target_node)

/-- The inner `for neighbor in neighbors` loop of `build_execution_order`:
decrement each neighbor's in-degree, enqueueing it when the count reaches
zero.  Rust decrements a `usize` behind `get_mut(...)`; the `Nat` subtraction
here agrees with it whenever no underflow occurs, which the invariant proofs
establish for well-formed flows. -/
def processNeighbors (deg : String → Nat) :
    List String → (String → Nat) × List String
  | [] => (deg, [])
  | v :: rest =>
      let d := deg v - 1
      let deg' : String → Nat := fun x => if x = v then d else deg x
      let result := processNeighbors deg' rest
      (result.1, (if d = 0 then [v] else []) ++ result.2)

/-- The `for _ in 0..batch_size` loop of `build_execution_order`: process each
queued node of the current batch in turn, collecting the nodes that become
ready (they form the next queue). -/
def processBatch (adjf : String → List String) (deg : String → Nat) :
    List String → (String → Nat) × List String
  | [] => (deg, [])
  | u :: rest =>
      let step := processNeighbors deg (adjf u)
      let result := processBatch adjf step.1 rest
      (result.1, step.2 ++ result.2)

/-- The `while !queue.is_empty()` loop of `build_execution_order`.  `fuel` is
an embedding artifact bounding the number of iterations; the caller passes
`nodes.length + edges.length + 1`, which exceeds the number of batches any
run can produce (each batch is non-empty and, for well-formed flows, batches
are pairwise disjoint subsets of the node ids). -/
def kahnLoop (adjf : String → List String) :
    Nat → (String → Nat) → List String → List (List String) → List (List String)
  | 0, _, _, acc => acc
  | fuel + 1, deg, queue, acc =>
      if queue.isEmpty then acc
      else
        let step := processBatch adjf deg queue
        kahnLoop adjf fuel step.1 step.2 (acc ++ [queue])

/-- `FlowExecutor::build_execution_order`: Kahn's algorithm batched into
waves, with the residue check `sum of batch sizes = nodes.len()` reporting a
cycle.  The initial queue iterates the in-degree map; the key order of
`flow.nodes` stands in for the source's `HashMap` iteration order. -/
def FlowExecutor.buildExecutionOrder (_ex : FlowExecutor) (flow : Flow) :
    Except GhostFlowError (List (List String)) :=
  let queue0 := flow.keys.filter (fun v => initInDegree flow v == 0)
  let result := kahnLoop (adjacency flow)
    (flow.nodes.length + flow.edges.length + 1) (initInDegree flow) queue0 []
  if (result.map List.length).sum == flow.nodes.length then .ok result
  else .error (.validationError "Flow contains cycles")

/-- `FlowExecutor::resolve_node_input`: clones the node's parameters and
rebuilds them into a JSON object unchanged (`.map(|(k, v)| (k, v))`); the
reference-interpolation described by the spec is an explicit `TODO` in the
source and does not consult `node_results` or `variables`. -/
def FlowExecutor.resolveNodeInput (_ex : FlowExecutor) (flow_node : FlowNode)
    (_node_results : List (String × Json)) (_variables : List (String × Json)) :
    Json :=
  Json.obj (flow_node.parameters.map (fun kv => (kv.1, kv.2)))

/-- `FlowExecutor::execute_node`: registry lookup, then `validate`, then
`execute`. -/
def FlowExecutor.executeNode (ex : FlowExecutor) (node_type : String)
    (context : ExecutionContext) : Except GhostFlowError Json :=
  match ex.node_registry.getNode node_type with
  | none => .error (.nodeExecutionError context.node_id
      ("Unknown node type: " ++ node_type))
  | some node => do
      node.validate context
      node.execute context

/-- Fallback used to totalise `flow.nodes.get(&node_id).unwrap()`; it is never
reached for well-formed flows (ids handed out by `buildExecutionOrder` are
keys of `flow.nodes`). -/
instance : Inhabited FlowNode :=
  ⟨{ id := "", node_type := "", name := "", description := none,
     parameters := [], position := { x := 0, y := 0 }, retry_config := none,
     timeout_ms := none }⟩

/-- The `for (i, result) in batch_results...` loop of
`execute_flow_internal`: fold the batch results in submission order into the
run's node-result map, stopping at the first failed node. -/
def collectBatch :
    List (String × Except GhostFlowError Json) → List (String × Json) →
    Except GhostFlowError (List (String × Json))
  | [], node_results => .ok node_results
  | (node_id, .ok output) :: rest, node_results =>
      collectBatch rest (insertKey node_results node_id output)
  | (_, .error e) :: _, _ => .error e

/-- The body of the `.map(|node_id| ...)` closure in
`execute_flow_internal`: build each node's `ExecutionContext` (with resolved
input) and pair the node id with the future's eventual result. -/
def batchOutcomes (ex : FlowExecutor) (flow : Flow) (execution_id : Nat)
    (vars : List (String × Json)) (node_results : List (String × Json))
    (batch : List String) : List (String × Except GhostFlowError Json) :=
  batch.map (fun node_id =>
    let flow_node := (lookupKey flow.nodes node_id).getD default
    let context : ExecutionContext :=
      { execution_id := execution_id, flow_id := flow.id,
        node_id := node_id,
        input := ex.resolveNodeInput flow_node node_results vars,
        vars := vars, secrets := [], artifacts := [] }
    (node_id, ex.executeNode flow_node.node_type context))

/-- The `for node_batch in execution_order` loop of `execute_flow_internal`.
The second component of the result is instrumentation recording each batch of
node ids handed to `join_all` (the source's `node_ids` vector), one entry per
dispatched batch. -/
def FlowExecutor.runWaves (ex : FlowExecutor) (flow : Flow)
    (execution_id : Nat) (vars : List (String × Json)) :
    List (List String) → List (String × Json) →
    Except GhostFlowError (List (String × Json)) × List (List String)
  | [], node_results => (.ok node_results, [])
  | batch :: rest, node_results =>
      match collectBatch
          (batchOutcomes ex flow execution_id vars node_results batch)
          node_results with
      | .error e => (.error e, [batch])
      | .ok node_results' =>
          let rec_result := ex.runWaves flow execution_id vars rest node_results'
          (rec_result.1, batch :: rec_result.2)

/-- `FlowExecutor::execute_flow_internal`.  The first component is the
function's Rust return value; the second is the dispatched-batch trace from
`runWaves`. -/
def FlowExecutor.executeFlowInternal (ex : FlowExecutor) (flow : Flow)
    (input_data : Json) (execution_id : Nat) :
    Except GhostFlowError Json × List (List String) :=
  match ex.buildExecutionOrder flow with
  | .error e => (.error e, [])
  | .ok execution_order =>
      let vars := insertKey [] "input" input_data
      match ex.runWaves flow execution_id vars execution_order [] with
      | (.error e, trace) => (.error e, trace)
      | (.ok node_results, trace) =>
          let final_output := match (flow.nodes.map Prod.fst).getLast? with
            | some last_node_id => (lookupKey node_results last_node_id).getD Json.null
            | none => Json.null
          (.ok final_output, trace)

/-- `FlowExecutor::execute_flow`.  `execution_id` stands for `Uuid::new_v4()`,
`now` for `chrono::Utc::now()` and `elapsed_ms` for
`start_time.elapsed().as_millis()`, all nondeterministic inputs of the
source.  The `Result` wrapper is kept so that the claim that the function
never returns an error is expressible. -/
def FlowExecutor.executeFlow (ex : FlowExecutor) (flow : Flow)
    (input_data : Json) (trigger : ExecutionTrigger) (execution_id : Nat)
    (now : Nat) (elapsed_ms : Nat) : Except GhostFlowError FlowExecution :=
  let execution : FlowExecution :=
    { id := execution_id, flow_id := flow.id, flow_version := flow.version,
      status := .running, trigger := trigger, input_data := input_data,
      output_data := none, error := none, node_executions := [],
      started_at := now, completed_at := none, execution_time_ms := none,
      metadata := { executor_id := "default", environment := "local",
                    correlation_id := none,
                    trace_id := some (toString execution_id),
                    span_id := none } }
  match (ex.executeFlowInternal flow input_data execution_id).1 with
  | .ok result =>
      .ok { execution with
            status := .completed,
            output_data := some result,
            completed_at := some now,
            execution_time_ms := some elapsed_ms }
  | .error error =>
      .ok { execution with
            status := .failed,
            error := some { error_type := .internalError,
                            message := error.render, details := none,
                            retryable := true },
            completed_at := some now,
            execution_time_ms := some elapsed_ms }

/-- `engine/runtime.rs`: `FlowRuntime::validate_flow`.  First-fail checks:
non-empty nodes, registered node types, edge endpoints present.  (There is no
cycle check here; cycles surface only in `build_execution_order`.)  Map
iteration over `flow.nodes` is modelled by list order. -/
def FlowRuntime.validateFlow (node_registry : BasicNodeRegistry) (flow : Flow) :
    Except GhostFlowError Unit :=
  if flow.nodes.isEmpty then
    .error (.validationError "Flow must contain at least one node")
  else
    match flow.nodes.find?
        (fun kv => !(node_registry.validateNodeType kv.2.node_type)) with
    | some kv =>
        .error (.validationError ("Unknown node type '" ++ kv.2.node_type ++
          "' in node '" ++ kv.1 ++ "'"))
    | none =>
        match flow.edges.find? (fun e =>
            !(containsKey flow.nodes e.source_node) ||
            !(containsKey flow.nodes e.target_node)) with
        | some e =>
            if containsKey flow.nodes e.source_node then
              .error (.validationError ("Edge references unknown target node '"
                ++ e.target_node ++ "'"))
            else
              .error (.validationError ("Edge references unknown source node '"
                ++ e.source_node ++ "'"))
        | none => .ok ()

/-- `engine/scheduler.rs`: `FlowScheduler::calculate_next_cron_run` — a stub
that ignores the expression and timezone and returns "now plus one minute"
(time as abstract ticks); in particular it never fails. -/
def FlowScheduler.calculateNextCronRun (_expression : String)
    (_timezone : Option String) (now : Nat) : Except GhostFlowError Nat :=
  .ok (now + 1)

/-- The trigger loop of `FlowScheduler::schedule_flow`: disabled triggers are
skipped, cron triggers get a computed `next_run`, webhook and manual triggers
get none. -/
def FlowScheduler.scheduleTriggers (now : Nat) :
    List FlowTrigger → Except GhostFlowError (List (String × Option Nat))
  | [] => .ok []
  | t :: rest =>
      if !t.enabled then FlowScheduler.scheduleTriggers now rest
      else
        match t.trigger_type with
        | .cron expression timezone => do
            let next ← FlowScheduler.calculateNextCronRun expression timezone now
            let others ← FlowScheduler.scheduleTriggers now rest
            .ok ((t.id, some next) :: others)
        | _ => do
            let others ← FlowScheduler.scheduleTriggers now rest
            .ok ((t.id, none) :: others)

/-- `engine/runtime.rs`: `FlowRuntime::deploy_flow` — validates, stores the
flow and schedules its triggers.  The stored flow map is runtime state not
observed by any claim; the deploy result models the `Result` the caller
sees. -/
def FlowRuntime.deployFlow (node_registry : BasicNodeRegistry) (flow : Flow)
    (now : Nat) : Except GhostFlowError Unit := do
  FlowRuntime.validateFlow node_registry flow
  let _ ← FlowScheduler.scheduleTriggers now flow.triggers
  .ok ()

/-- Modelled from the spec: a *source* is a node with in-degree zero. -/
def specSources (flow : Flow) : List String :=
  flow.keys.filter (fun v => !(flow.edges.any (fun e => e.target_node == v)))

/-- Modelled from the spec: a *sink* is a node with out-degree zero (used to
compare the source's output selection against the spec's). -/
def specSinks (flow : Flow) : List String :=
  flow.keys.filter (fun v => !(flow.edges.any (fun e => e.source_node == v)))

/-- One expansion step of spec-side reachability: add the targets of edges
whose source is already reached. -/
def specReachStep (flow : Flow) (s : List String) : List String :=
  (s ++ (flow.edges.filter (fun e => s.contains e.source_node)).map
    (fun e => e.target_node)).dedup

/-- Modelled from the spec: the count of nodes reachable from at least one
source along non-false edges.  An edge without a `condition` is never false;
the flows this definition is applied to carry no edge conditions, so dynamic
condition evaluation does not arise. -/
def specReachableCount (flow : Flow) : Nat :=
  ((specReachStep flow)^[flow.nodes.length] (specSources flow)).dedup.length

/-- Index of the wave containing `v` (`waves.findIdx`); with each node in
exactly one wave this is the unique wave index of `v`. -/
def waveIndex (waves : List (List String)) (v : String) : Nat :=
  waves.findIdx (fun w => w.contains v)

/-- A minimal `NodeDefinition` for test nodes. -/
def mkDef (defName : String) : NodeDefinition :=
  { id := defName, name := defName, description := "", category := .action,
    version := "0.1.0", inputs := [], outputs := [], parameters := [],
    icon := none, color := none }

/-- A node implementation that always succeeds with a fixed output. -/
def mkConstNode (defName : String) (out : Json) : NodeImpl :=
  { definition := mkDef defName, validate := fun _ => .ok (),
    execute := fun _ => .ok out }

/-- A node implementation that always fails with a retryable network error. -/
def mkFailNode (defName : String) : NodeImpl :=
  { definition := mkDef defName, validate := fun _ => .ok (),
    execute := fun _ => .error (.networkError "connection reset") }

/-- Fixed metadata for test flows. -/
def exMetadata : FlowMetadata :=
  { created_at := 0, updated_at := 0, created_by := "test", tags := [],
    category := none }

/-- A flow node with the given id, node type and parameters. -/
def mkNode (nid node_type : String) (params : List (String × Json)) : FlowNode :=
  { id := nid, node_type := node_type, name := nid, description := none,
    parameters := params, position := { x := 0, y := 0 },
    retry_config := none, timeout_ms := none }

/-- An unconditioned edge. -/
def mkEdge (eid src tgt : String) : FlowEdge :=
  { id := eid, source_node := src, target_node := tgt, source_port := none,
    target_port := none, condition := none }

/-- A triggerless test flow over the given nodes and edges. -/
def mkFlow (nodes : List (String × FlowNode)) (edges : List FlowEdge) : Flow :=
  { id := 1, name := "f", description := none, version := "1.0.0",
    nodes := nodes, edges := edges, triggers := [], parameters := [],
    secrets := [], metadata := exMetadata }

/-- Manual execution trigger record. -/
def exTrigger : ExecutionTrigger :=
  { trigger_type := "manual", source := none, metadata := [] }

/-- One-node flow whose node succeeds: used against the per-node record
claims. -/
def flowSingle : Flow :=
  mkFlow [("a", mkNode "a" "t" [])] []

/-- Registry for `flowSingle`. -/
def regSingle : BasicNodeRegistry :=
  { nodes := [("t", mkConstNode "t" (Json.num 7))] }

/-- Two-node flow `b → a`: the unique sink is `a`, the last map key is `b`. -/
def flowSink : Flow :=
  mkFlow [("a", mkNode "a" "ta" []), ("b", mkNode "b" "tb" [])]
    [mkEdge "e1" "b" "a"]

/-- Registry for `flowSink`: node `a` outputs `1`, node `b` outputs `2`. -/
def regSink : BasicNodeRegistry :=
  { nodes := [("ta", mkConstNode "ta" (Json.num 1)),
              ("tb", mkConstNode "tb" (Json.num 2))] }

/-- One-node flow with a retry config whose node always fails with a
retryable network error. -/
def flowRetry : Flow :=
  mkFlow [("a", { mkNode "a" "tfail" [] with
                  retry_config := some { max_attempts := 3, delay_ms := 10,
                                         backoff_multiplier := 2,
                                         max_delay_ms := 100 } })] []

/-- Registry for `flowRetry`: the node declares `supports_retry` (the trait
default `true`) and fails with `NetworkError` on every call. -/
def regRetry : BasicNodeRegistry :=
  { nodes := [("tfail", mkFailNode "tfail")] }

/-- Two-node chain `a → b` used as the topological-order witness flow. -/
def flowChain : Flow :=
  mkFlow [("a", mkNode "a" "t" []), ("b", mkNode "b" "t" [])]
    [mkEdge "e1" "a" "b"]

/-- Eleven pairwise-independent nodes: a single wave wider than the executor's
`max_concurrent_nodes = 10`. -/
def flowWide : Flow :=
  mkFlow (["n01", "n02", "n03", "n04", "n05", "n06", "n07", "n08", "n09",
           "n10", "n11"].map (fun n => (n, mkNode n "t" []))) []

/-- Registry for `flowWide`. -/
def regWide : BasicNodeRegistry :=
  { nodes := [("t", mkConstNode "t" (Json.num 0))] }

/-- Cyclic flow: edges `a → b` and `b → a`. -/
def flowCycle : Flow :=
  mkFlow [("a", mkNode "a" "t" []), ("b", mkNode "b" "t" [])]
    [mkEdge "e1" "a" "b", mkEdge "e2" "b" "a"]

/-- Registry registering the node type of `flowCycle`, so that deploy-time
validation can only reject it for graph-shape reasons. -/
def regCycle : BasicNodeRegistry :=
  { nodes := [("t", mkConstNode "t" (Json.num 0))] }

/-- First of two observably different node implementations registered under
the same node type. -/
def nodeImplOne : NodeImpl :=
  mkConstNode "impl-one" (Json.num 1)

/-- Second of two observably different node implementations registered under
the same node type. -/
def nodeImplTwo : NodeImpl :=
  mkConstNode "impl-two" (Json.num 2)

/-- Registry already holding `nodeImplOne` under type `t`. -/
def regDup : BasicNodeRegistry :=
  { nodes := [("t", nodeImplOne)] }

/-- The empty flow (no nodes, no edges). -/
def flowEmpty : Flow :=
  mkFlow [] []

/-- Flow with one node whose parameter is the spec's upstream-reference
expression `\x7b\x7b $nodes.N.x \x7d\x7d` (braces escaped). -/
def refParamNode : FlowNode :=
  mkNode "m" "t" [("x", Json.str "\x7b\x7b $nodes.N.x \x7d\x7d")]

/-- A node-result map in which upstream node `N` has emitted `{x: 42}`. -/
def refResults : List (String × Json) :=
  [("N", Json.obj [("x", Json.num 42)])]

/-- Update one node's `retry_config` inside a flow, leaving everything else
unchanged (used to state that the executor ignores retry configuration). -/
def Flow.setRetryConfig (flow : Flow) (nid : String) (rc : Option RetryConfig) :
    Flow :=
  { flow with nodes := flow.nodes.map (fun kv =>
      if kv.1 == nid then (kv.1, { kv.2 with retry_config := rc }) else kv) }

/-- Update one registered node's `supports_retry` flag, leaving everything
else unchanged. -/
def BasicNodeRegistry.setSupportsRetry (r : BasicNodeRegistry) (t : String)
    (b : Bool) : BasicNodeRegistry :=
  { nodes := r.nodes.map (fun kv =>
      if kv.1 == t then (kv.1, { kv.2 with supports_retry := b }) else kv) }

/-- The executor's `node_results` map at the end of a successful run of
`execute_flow_internal` (a projection of the same computation); `none` when
planning failed or some node failed. -/
def FlowExecutor.finalNodeResults (ex : FlowExecutor) (flow : Flow)
    (input_data : Json) (execution_id : Nat) : Option (List (String × Json)) :=
  match ex.buildExecutionOrder flow with
  | .error _ => none
  | .ok execution_order =>
      match ex.runWaves flow execution_id (insertKey [] "input" input_data)
          execution_order [] with
      | (.ok node_results, _) => some node_results
      | (.error _, _) => none

/-- Number of edges into `v` whose source has not been processed yet
(processed nodes being those in `S`): the quantity tracked by the mutable
`in_degree` map during `build_execution_order`. -/
def pendIn (E : List FlowEdge) (S : List String) (v : String) : Nat :=
  E.countP (fun e => e.target_node == v && !(S.contains e.source_node))

/-- Number of edges into `v` from sources inside `Q`. -/
def cntFrom (E : List FlowEdge) (Q : List String) (v : String) : Nat :=
  E.countP (fun e => e.target_node == v && Q.contains e.source_node)

/-- How many times `v` occurs among the neighbor lists of the batch `Q`; this
is the number of decrements `v` receives while `Q` is processed. -/
def neighborCount (adjf : String → List String) (Q : List String) (v : String) :
    Nat :=
  (Q.flatMap adjf).count v

/-- Loop invariant of the batched Kahn's algorithm in
`build_execution_order`, stated over the node ids `K` and edges `E` of a
flow at the head of each `while` iteration: emitted waves (`acc`) and the
queue are disjoint node ids, the mutable degree map agrees with the pending
in-edge count of every unprocessed node, queued nodes have no pending
in-edges, and every emitted node's in-edges come from strictly earlier
waves. -/
structure KahnInv (K : List String) (E : List FlowEdge) (deg : String → Nat)
    (queue : List String) (acc : List (List String)) : Prop where
  nodup : (acc.flatten ++ queue).Nodup
  sub_acc : ∀ v ∈ acc.flatten, v ∈ K
  sub_queue : ∀ v ∈ queue, v ∈ K
  deg_eq : ∀ v ∈ K, v ∉ acc.flatten → deg v = pendIn E acc.flatten v
  queue_ready : ∀ v ∈ queue, pendIn E acc.flatten v = 0
  topo : ∀ e ∈ E, ∀ j, ∀ hj : j < acc.length,
    e.target_node ∈ acc.get ⟨j, hj⟩ → e.source_node ∈ (acc.take j).flatten

/-- Facts carried out of the Kahn loop: the emitted waves are disjoint node
ids of the flow and every emitted node's in-edges come from strictly earlier
waves. -/
def TopoOut (K : List String) (E : List FlowEdge) (L : List (List String)) :
    Prop :=
  L.flatten.Nodup ∧ (∀ v ∈ L.flatten, v ∈ K) ∧
  (∀ e ∈ E, ∀ j, ∀ hj : j < L.length,
    e.target_node ∈ L.get ⟨j, hj⟩ → e.source_node ∈ (L.take j).flatten)

/-! ### Association-list lemmas -/

theorem containsKey_iff_exists {α : Type} (m : List (String × α)) (k : String) :
    containsKey m k = true ↔ ∃ kv ∈ m, kv.1 = k := by
  simp only [containsKey, List.any_eq_true, beq_iff_eq]

theorem lookupKey_map_overwrite {α : Type} (m : List (String × α))
    (k : String) (v : α) (h : containsKey m k = true) :
    lookupKey (m.map (fun kv => if kv.1 == k then (k, v) else kv)) k =
      some v := by
  induction m with
  | nil => simp [containsKey] at h
  | cons kv rest ih =>
      by_cases hk : kv.1 = k
      · simp [lookupKey, List.find?, hk]
      · have hne : (kv.1 == k) = false := by simp [hk]
        have hrest : containsKey rest k = true := by
          simp only [containsKey, List.any_cons, hne, Bool.false_or] at h
          exact h
        simpa [lookupKey, List.find?, hne] using ih hrest

theorem lookupKey_append_new {α : Type} (m : List (String × α)) (k : String)
    (v : α) (h : containsKey m k = false) :
    lookupKey (m ++ [(k, v)]) k = some v := by
  induction m with
  | nil => simp [lookupKey, List.find?]
  | cons kv rest ih =>
      simp only [containsKey, List.any_cons, Bool.or_eq_false_iff] at h
      simpa [lookupKey, List.find?, h.1] using ih h.2

theorem lookupKey_insertKey_self {α : Type} (m : List (String × α)) (k : String)
    (v : α) : lookupKey (insertKey m k v) k = some v := by
  unfold insertKey
  by_cases h : containsKey m k
  · rw [if_pos h]
    exact lookupKey_map_overwrite m k v h
  · rw [if_neg h]
    exact lookupKey_append_new m k v (by simpa using h)

theorem mem_insertKey_key_eq {α : Type} (m : List (String × α)) (k : String)
    (v : α) : ∀ kv ∈ insertKey m k v, kv.1 = k → kv = (k, v) := by
  intro kv hkv hk
  unfold insertKey at hkv
  by_cases hm : containsKey m k
  · rw [if_pos hm] at hkv
    rw [List.mem_map] at hkv
    obtain ⟨kv', _, hkv'⟩ := hkv
    by_cases h' : kv'.1 = k
    · simpa [h'] using hkv'.symm
    · rw [if_neg (by simp [h'])] at hkv'
      rw [← hkv'] at hk
      exact absurd hk h'
  · rw [if_neg hm] at hkv
    rcases List.mem_append.mp hkv with hmem | hmem
    · exact absurd ((containsKey_iff_exists m k).mpr ⟨kv, hmem, hk⟩) hm
    · simpa using hmem

theorem containsKey_insertKey_self {α : Type} (m : List (String × α))
    (k : String) (v : α) : containsKey (insertKey m k v) k = true := by
  have h := lookupKey_insertKey_self m k v
  unfold lookupKey at h
  cases hf : (insertKey m k v).find? (fun kv => kv.1 == k) with
  | none => rw [hf] at h; simp at h
  | some kv =>
      exact (containsKey_iff_exists _ k).mpr
        ⟨kv, List.mem_of_find?_eq_some hf, by simpa using List.find?_some hf⟩

theorem insertKey_insertKey_self {α : Type} (m : List (String × α)) (k : String)
    (v : α) : insertKey (insertKey m k v) k v = insertKey m k v := by
  generalize hm' : insertKey m k v = m'
  unfold insertKey
  rw [← hm', containsKey_insertKey_self m k v, if_pos rfl, hm']
  have : ∀ kv ∈ m', (fun kv => if kv.1 == k then (k, v) else kv) kv = id kv := by
    intro kv hkv
    by_cases h : kv.1 = k
    · have := mem_insertKey_key_eq m k v kv (hm' ▸ hkv) h
      simp [h, this]
    · simp [h]
  rw [List.map_congr_left this, List.map_id]

/-- Lookup after a key-preserving map: used to show the executor is blind to
`retry_config` and `supports_retry` edits. -/
theorem find?_map_keyfix {α : Type} (m : List (String × α))
    (f : String × α → String × α) (hf : ∀ kv, (f kv).1 = kv.1) (k : String) :
    (m.map f).find? (fun kv => kv.1 == k) =
      (m.find? (fun kv => kv.1 == k)).map f := by
  induction m with
  | nil => rfl
  | cons kv rest ih =>
      simp only [List.map_cons, List.find?]
      rw [hf kv]
      cases h : (kv.1 == k) with
      | true => rfl
      | false => exact ih

/-! ### C3 — parameter reference resolution -/

/-- C3 counterexample: after upstream node `N` has emitted `{x: 42}`, the
parameter `\x7b\x7b $nodes.N.x \x7d\x7d` of a downstream node does not
resolve to `42`; `resolve_node_input` returns the reference text verbatim. -/
theorem resolveNodeInput_reference_counterexample :
    (FlowExecutor.new regSingle).resolveNodeInput refParamNode refResults [] =
      Json.obj [("x", Json.str "\x7b\x7b $nodes.N.x \x7d\x7d")] ∧
    Json.str "\x7b\x7b $nodes.N.x \x7d\x7d" ≠ Json.num 42 :=
  ⟨rfl, fun h => Json.noConfusion h⟩

/-- C3 (amended): `resolve_node_input` returns the node's declared parameters
verbatim as a JSON object; it never consults the run's node-result map or the
variables (reference interpolation is an explicit `TODO` in the source). -/
theorem resolveNodeInput_returns_parameters_verbatim (ex ex' : FlowExecutor)
    (flow_node : FlowNode) (res res' vars vars' : List (String × Json)) :
    ex.resolveNodeInput flow_node res vars = Json.obj flow_node.parameters ∧
    ex.resolveNodeInput flow_node res vars =
      ex'.resolveNodeInput flow_node res' vars' := by
  constructor
  · simp [FlowExecutor.resolveNodeInput]
  · rfl

/-! ### C9 — node registry registration -/

/-- C9 counterexample: registering a second, observably different
implementation under the already-registered type `t` does not fail with a
validation error; it succeeds and silently replaces the first
implementation. -/
theorem registerNode_duplicate_type_counterexample :
    regDup.registerNode "t" nodeImplTwo =
      .ok { nodes := [("t", nodeImplTwo)] } ∧
    BasicNodeRegistry.getNode { nodes := [("t", nodeImplTwo)] } "t" =
      some nodeImplTwo ∧
    nodeImplTwo.definition.name ≠ nodeImplOne.definition.name := by
  refine ⟨rfl, rfl, ?_⟩
  simp [nodeImplOne, nodeImplTwo, mkConstNode, mkDef]

/-- C9 (amended): `register_node` never fails.  It unconditionally inserts,
so the last registration under a node type wins, and re-registering the same
implementation is idempotent. -/
theorem registerNode_always_succeeds_overwrites (r : BasicNodeRegistry)
    (t : String) (n : NodeImpl) :
    ∃ r', r.registerNode t n = .ok r' ∧ r'.getNode t = some n ∧
      r'.registerNode t n = .ok r' := by
  refine ⟨{ nodes := insertKey r.nodes t n }, rfl, ?_, ?_⟩
  · exact lookupKey_insertKey_self r.nodes t n
  · unfold BasicNodeRegistry.registerNode
    rw [insertKey_insertKey_self]

/-! ### C8 — deploy-time validation and cycles -/

/-- C8 counterexample: the cyclic flow `a → b → a` (with its node type
registered) deploys successfully — `validate_flow` has no cycle check — while
the executor's own planner classifies the very same flow as cyclic. -/
theorem deploy_cyclic_flow_counterexample :
    FlowRuntime.deployFlow regCycle flowCycle 0 = .ok () ∧
    (FlowExecutor.new regCycle).buildExecutionOrder flowCycle =
      .error (.validationError "Flow contains cycles") :=
  ⟨rfl, rfl⟩

/-- C8 (amended): `validate_flow` accepts a flow exactly when it is
non-empty, every node type is registered and every edge endpoint exists; the
spec's cycle check is absent, so cyclic flows deploy and the cycle is only
reported at execution time by `build_execution_order`. -/
theorem validateFlow_ok_iff (reg : BasicNodeRegistry) (flow : Flow) :
    FlowRuntime.validateFlow reg flow = .ok () ↔
      (flow.nodes ≠ [] ∧
       (∀ kv ∈ flow.nodes, reg.validateNodeType kv.2.node_type = true) ∧
       (∀ e ∈ flow.edges, containsKey flow.nodes e.source_node = true ∧
          containsKey flow.nodes e.target_node = true)) := by
  constructor
  · intro h
    unfold FlowRuntime.validateFlow at h
    by_cases hempty : flow.nodes.isEmpty
    · rw [if_pos hempty] at h
      exact absurd h (by simp)
    · rw [if_neg hempty] at h
      cases hn : flow.nodes.find?
          (fun kv => !(reg.validateNodeType kv.2.node_type)) with
      | some kv =>
          rw [hn] at h
          exact absurd h (by simp)
      | none =>
          rw [hn] at h
          cases he : flow.edges.find? (fun e =>
              !(containsKey flow.nodes e.source_node) ||
              !(containsKey flow.nodes e.target_node)) with
          | some e =>
              rw [he] at h
              by_cases hs : containsKey flow.nodes e.source_node = true <;>
                simp only [hs] at h <;> exact absurd h (by simp)
          | none =>
              refine ⟨by simpa [List.isEmpty_iff] using hempty, ?_, ?_⟩
              · intro kv hkv
                have := List.find?_eq_none.mp hn kv hkv
                simpa using this
              · intro e he'
                have := List.find?_eq_none.mp he e he'
                simp only [Bool.or_eq_true, Bool.not_eq_true',
                  not_or] at this
                exact ⟨by simpa using this.1, by simpa using this.2⟩
  · rintro ⟨h1, h2, h3⟩
    unfold FlowRuntime.validateFlow
    rw [if_neg (by simpa [List.isEmpty_iff] using h1)]
    have hn : flow.nodes.find?
        (fun kv => !(reg.validateNodeType kv.2.node_type)) = none := by
      rw [List.find?_eq_none]
      intro kv hkv
      simp [h2 kv hkv]
    have he : flow.edges.find? (fun e =>
        !(containsKey flow.nodes e.source_node) ||
        !(containsKey flow.nodes e.target_node)) = none := by
      rw [List.find?_eq_none]
      intro e he'
      simp [(h3 e he').1, (h3 e he').2]
    rw [hn, he]

/-! ### C1 — execute_flow totality and error capture -/

/-- C1: `execute_flow` always returns `Ok` with a terminal status, and the
outcome of `execute_flow_internal` is fully reflected in the record: any
failure during planning or node execution yields status `Failed` with that
error captured in the record's `error` field, and a success yields
`Completed` with the produced output and no error. -/
theorem executeFlow_never_fails (ex : FlowExecutor) (flow : Flow) (input : Json)
    (trigger : ExecutionTrigger) (eid now elapsed : Nat)
    (_hwf : flow.WellFormed) :
    ∃ e, ex.executeFlow flow input trigger eid now elapsed = .ok e ∧
      (e.status = .completed ∨ e.status = .failed) ∧
      (∀ r, (ex.executeFlowInternal flow input eid).1 = .ok r →
        e.status = .completed ∧ e.error = none ∧ e.output_data = some r) ∧
      (∀ err, (ex.executeFlowInternal flow input eid).1 = .error err →
        e.status = .failed ∧
        e.error = some { error_type := .internalError, message := err.render,
                         details := none, retryable := true }) := by
  unfold FlowExecutor.executeFlow
  cases h : (ex.executeFlowInternal flow input eid).1 with
  | ok r =>
      refine ⟨_, rfl, Or.inl rfl, fun r' hr' => ?_, fun err hc => ?_⟩
      · injection hr' with hr'
        subst hr'
        exact ⟨rfl, rfl, rfl⟩
      · exact Except.noConfusion hc
  | error err =>
      refine ⟨_, rfl, Or.inr rfl, fun r' hc => ?_, fun err' herr' => ?_⟩
      · exact Except.noConfusion hc
      · injection herr' with herr'
        subst herr'
        exact ⟨rfl, rfl⟩

/-- C1 witness: the theorem applied to the concrete one-node flow. -/
theorem executeFlow_never_fails_witness :
    ∃ e, (FlowExecutor.new regSingle).executeFlow flowSingle Json.null
        exTrigger 0 0 0 = .ok e ∧
      (e.status = .completed ∨ e.status = .failed) ∧
      (∀ r, ((FlowExecutor.new regSingle).executeFlowInternal flowSingle
          Json.null 0).1 = .ok r →
        e.status = .completed ∧ e.error = none ∧ e.output_data = some r) ∧
      (∀ err, ((FlowExecutor.new regSingle).executeFlowInternal flowSingle
          Json.null 0).1 = .error err →
        e.status = .failed ∧
        e.error = some { error_type := .internalError, message := err.render,
                         details := none, retryable := true }) :=
  executeFlow_never_fails (FlowExecutor.new regSingle) flowSingle Json.null
    exTrigger 0 0 0 (by decide)

/-! ### C2 — per-node execution records -/

/-- C2 counterexample: executing the one-node flow succeeds and exactly one
node is reachable from a source, yet the returned record holds zero node
executions — `node_executions` is never populated. -/
theorem node_executions_size_counterexample :
    ∃ e, (FlowExecutor.new regSingle).executeFlow flowSingle Json.null
        exTrigger 0 0 0 = .ok e ∧
      e.status = .completed ∧ e.node_executions.length = 0 ∧
      specReachableCount flowSingle = 1 ∧ (0 : Nat) ≠ 1 :=
  ⟨_, rfl, rfl, rfl, rfl, by decide⟩

/-- C2 (amended): the executor never records per-node executions: for every
well-formed flow the returned record's `node_executions` map is empty (the
field is initialised empty and never written). -/
theorem executeFlow_node_executions_always_empty (ex : FlowExecutor)
    (flow : Flow) (input : Json) (trigger : ExecutionTrigger)
    (eid now elapsed : Nat) (_hwf : flow.WellFormed) :
    ∃ e, ex.executeFlow flow input trigger eid now elapsed = .ok e ∧
      e.node_executions = [] := by
  unfold FlowExecutor.executeFlow
  cases (ex.executeFlowInternal flow input eid).1 with
  | ok r => exact ⟨_, rfl, rfl⟩
  | error err => exact ⟨_, rfl, rfl⟩

/-- C2 witness: the amended theorem applied to the concrete one-node flow. -/
theorem executeFlow_node_executions_always_empty_witness :
    ∃ e, (FlowExecutor.new regSingle).executeFlow flowSingle Json.null
        exTrigger 0 0 0 = .ok e ∧ e.node_executions = [] :=
  executeFlow_node_executions_always_empty (FlowExecutor.new regSingle)
    flowSingle Json.null exTrigger 0 0 0 (by decide)

/-! ### C10 — empty flow execution -/

/-- C10: the executor itself accepts the empty flow — it returns a record
with status `Completed` and `output_data = Null` — while deploy-time
validation is what rejects it ("Flow must contain at least one node"). -/
theorem executeFlow_empty_flow (ex : FlowExecutor) (reg : BasicNodeRegistry)
    (input : Json) (trigger : ExecutionTrigger) (eid now elapsed : Nat)
    (flow : Flow) (_hwf : flow.WellFormed) (hempty : flow.nodes = []) :
    ∃ e, ex.executeFlow flow input trigger eid now elapsed = .ok e ∧
      e.status = .completed ∧ e.output_data = some Json.null ∧
      FlowRuntime.validateFlow reg flow =
        .error (.validationError "Flow must contain at least one node") := by
  have hkeys : flow.keys = [] := by simp [Flow.keys, hempty]
  have hbuild : ex.buildExecutionOrder flow = .ok [] := by
    unfold FlowExecutor.buildExecutionOrder
    rw [hkeys, hempty]
    simp [kahnLoop]
  have hinternal : ex.executeFlowInternal flow input eid = (.ok Json.null, []) := by
    unfold FlowExecutor.executeFlowInternal
    rw [hbuild]
    simp [FlowExecutor.runWaves, hempty]
  have hvalidate : FlowRuntime.validateFlow reg flow =
      .error (.validationError "Flow must contain at least one node") := by
    unfold FlowRuntime.validateFlow
    rw [if_pos (by simp [hempty])]
  unfold FlowExecutor.executeFlow
  rw [hinternal]
  exact ⟨_, rfl, rfl, rfl, hvalidate⟩

/-- C10 witness: the theorem applied to the concrete empty flow. -/
theorem executeFlow_empty_flow_witness :
    ∃ e, (FlowExecutor.new BasicNodeRegistry.new).executeFlow flowEmpty
        Json.null exTrigger 0 0 0 = .ok e ∧
      e.status = .completed ∧ e.output_data = some Json.null ∧
      FlowRuntime.validateFlow BasicNodeRegistry.new flowEmpty =
        .error (.validationError "Flow must contain at least one node") :=
  executeFlow_empty_flow (FlowExecutor.new BasicNodeRegistry.new)
    BasicNodeRegistry.new Json.null exTrigger 0 0 0 flowEmpty (by decide) rfl

/-! ### C5 — retry policy -/

/-- C5 counterexample: node `a` declares `supports_retry` (trait default
`true`), carries `retry_config = {max_attempts:3, ...}` and fails with a
retryable `NetworkError`; the executor does not retry: the flow fails on the
first attempt and no `NodeExecution` (hence no `retry_count` update) is ever
created. -/
theorem retry_never_performed_counterexample :
    ∃ e, (FlowExecutor.new regRetry).executeFlow flowRetry Json.null exTrigger
        0 0 0 = .ok e ∧
      e.status = .failed ∧ e.node_executions = [] ∧
      (regRetry.getNode "tfail").map (fun n => n.supports_retry) = some true ∧
      (lookupKey flowRetry.nodes "a").map (fun n => n.retry_config) =
        some (some { max_attempts := 3, delay_ms := 10,
                     backoff_multiplier := 2, max_delay_ms := 100 }) :=
  ⟨_, rfl, rfl, rfl, rfl, rfl⟩

/-! ### C4 — output selection -/

/-- C4 counterexample: in `flowSink` the unique sink is `a` whose recorded
output is `1`, yet `output_data` is `2` — the output of node `b`, the last
key of the nodes map — because output selection uses `nodes.keys().last()`
and ignores the edge structure. -/
theorem output_not_sink_counterexample :
    ∃ e, (FlowExecutor.new regSink).executeFlow flowSink Json.null exTrigger
        0 0 0 = .ok e ∧
      e.status = .completed ∧ e.output_data = some (Json.num 2) ∧
      specSinks flowSink = ["a"] ∧
      ((FlowExecutor.new regSink).finalNodeResults flowSink Json.null 0).map
        (fun r => lookupKey r "a") = some (some (Json.num 1)) ∧
      Json.num 2 ≠ Json.num 1 := by
  refine ⟨_, rfl, rfl, rfl, rfl, rfl, ?_⟩
  intro h
  injection h with h2
  exact absurd h2 (by decide)

/-- C4 (amended): when every wave completes, `output_data` is the node result
of the *last key of the nodes map* (an arbitrary key for the source's
`HashMap`), with `Null` as fallback — not the output of the sink(s). -/
theorem output_is_last_map_key (ex : FlowExecutor) (flow : Flow) (input : Json)
    (trigger : ExecutionTrigger) (eid now elapsed : Nat)
    (results : List (String × Json))
    (h : ex.finalNodeResults flow input eid = some results) :
    ∃ e, ex.executeFlow flow input trigger eid now elapsed = .ok e ∧
      e.status = .completed ∧
      e.output_data = some (match (flow.nodes.map Prod.fst).getLast? with
        | some last_node_id => (lookupKey results last_node_id).getD Json.null
        | none => Json.null) := by
  unfold FlowExecutor.finalNodeResults at h
  unfold FlowExecutor.executeFlow FlowExecutor.executeFlowInternal
  cases hb : ex.buildExecutionOrder flow with
  | error e0 => rw [hb] at h; exact absurd h (by simp)
  | ok execution_order =>
      rw [hb] at h
      dsimp only at h ⊢
      cases hr : ex.runWaves flow eid (insertKey [] "input" input)
          execution_order [] with
      | mk res trace =>
          rw [hr] at h
          cases res with
          | error e0 => simp at h
          | ok node_results =>
              have hres : node_results = results := by simpa using h
              subst hres
              exact ⟨_, rfl, rfl, rfl⟩

/-- C4 witness: the amended theorem applied to `flowSink`, whose final result
map is `[(b, 2), (a, 1)]` and whose last nodes-map key is `b`. -/
theorem output_is_last_map_key_witness :
    ∃ e, (FlowExecutor.new regSink).executeFlow flowSink Json.null exTrigger
        0 0 0 = .ok e ∧
      e.status = .completed ∧
      e.output_data = some (match (flowSink.nodes.map Prod.fst).getLast? with
        | some last_node_id =>
            (lookupKey [("b", Json.num 2), ("a", Json.num 1)]
              last_node_id).getD Json.null
        | none => Json.null) :=
  output_is_last_map_key (FlowExecutor.new regSink) flowSink Json.null
    exTrigger 0 0 0 [("b", Json.num 2), ("a", Json.num 1)] rfl

/-! ### C7 — concurrency bound -/

/-- When the wave loop succeeds, its dispatched-batch trace is exactly the
planned wave list: every wave goes to `join_all` as one whole batch. -/
theorem runWaves_trace_eq_waves (ex : FlowExecutor) (flow : Flow) (eid : Nat)
    (vars : List (String × Json)) :
    ∀ (waves : List (List String)) (results results' : List (String × Json)),
      (ex.runWaves flow eid vars waves results).1 = .ok results' →
      (ex.runWaves flow eid vars waves results).2 = waves := by
  intro waves
  induction waves with
  | nil => intro results results' _; rfl
  | cons batch rest ih =>
      intro results results' h
      unfold FlowExecutor.runWaves at h ⊢
      cases hc : collectBatch (batchOutcomes ex flow eid vars results batch)
          results with
      | error e => rw [hc] at h; simp at h
      | ok node_results' =>
          rw [hc] at h
          dsimp only at h ⊢
          rw [ih node_results' results' h]

/-- C7 (amended): the executor dispatches each planned wave as a single batch
of its full width; `max_concurrent_nodes` is stored but never consulted, so
no wave is split into sub-batches. -/
theorem waves_dispatched_unsplit (ex : FlowExecutor) (flow : Flow)
    (input : Json) (eid : Nat) (execution_order : List (List String))
    (results : List (String × Json))
    (horder : ex.buildExecutionOrder flow = .ok execution_order)
    (hok : ex.finalNodeResults flow input eid = some results) :
    (ex.executeFlowInternal flow input eid).2 = execution_order := by
  unfold FlowExecutor.finalNodeResults at hok
  rw [horder] at hok
  dsimp only at hok
  unfold FlowExecutor.executeFlowInternal
  rw [horder]
  dsimp only
  cases hr : ex.runWaves flow eid (insertKey [] "input" input)
      execution_order [] with
  | mk res trace =>
      rw [hr] at hok
      cases res with
      | error e0 => simp at hok
      | ok node_results =>
          dsimp only
          have htr := runWaves_trace_eq_waves ex flow eid
            (insertKey [] "input" input) execution_order [] node_results
            (by rw [hr])
          rw [hr] at htr
          exact htr

/-- C7 witness: the amended theorem applied to `flowWide` (11 independent
nodes, one wave). -/
theorem waves_dispatched_unsplit_witness :
    ((FlowExecutor.new regWide).executeFlowInternal flowWide Json.null 0).2 =
      [["n01", "n02", "n03", "n04", "n05", "n06", "n07", "n08", "n09", "n10",
        "n11"]] :=
  waves_dispatched_unsplit (FlowExecutor.new regWide) flowWide Json.null 0
    [["n01", "n02", "n03", "n04", "n05", "n06", "n07", "n08", "n09", "n10",
      "n11"]]
    [("n01", Json.num 0), ("n02", Json.num 0), ("n03", Json.num 0),
     ("n04", Json.num 0), ("n05", Json.num 0), ("n06", Json.num 0),
     ("n07", Json.num 0), ("n08", Json.num 0), ("n09", Json.num 0),
     ("n10", Json.num 0), ("n11", Json.num 0)] rfl rfl

/-- C7 counterexample: `flowWide`'s single wave of 11 nodes is dispatched as
one batch of size 11, exceeding `max_concurrent_nodes = 10` (the default set
by `FlowExecutor::new`): waves wider than the bound are not split. -/
theorem batch_exceeds_concurrency_bound_counterexample :
    ((FlowExecutor.new regWide).executeFlowInternal flowWide Json.null
        0).2.map List.length = [11] ∧
    (FlowExecutor.new regWide).max_concurrent_nodes = 10 ∧ (10 : Nat) < 11 :=
  ⟨rfl, rfl, by decide⟩

/-! ### C5 (amended) — the executor is blind to retry configuration -/

theorem setRetryConfig_keys (flow : Flow) (nid : String)
    (rc : Option RetryConfig) :
    (flow.setRetryConfig nid rc).nodes.map Prod.fst =
      flow.nodes.map Prod.fst := by
  unfold Flow.setRetryConfig
  dsimp only
  rw [List.map_map]
  apply List.map_congr_left
  intro kv _
  by_cases h : kv.1 = nid <;> simp [h]

theorem setRetryConfig_node_type_params (flow : Flow) (nid : String)
    (rc : Option RetryConfig) (k : String) :
    ((lookupKey (flow.setRetryConfig nid rc).nodes k).getD default).node_type =
      ((lookupKey flow.nodes k).getD default).node_type ∧
    ((lookupKey (flow.setRetryConfig nid rc).nodes k).getD default).parameters =
      ((lookupKey flow.nodes k).getD default).parameters := by
  unfold Flow.setRetryConfig lookupKey
  rw [find?_map_keyfix flow.nodes _
    (fun kv => by by_cases h : kv.1 = nid <;> simp [h]) k]
  cases hf : flow.nodes.find? (fun kv => kv.1 == k) with
  | none => exact ⟨rfl, rfl⟩
  | some kv =>
      dsimp only [Option.map_some, Option.getD_some]
      by_cases h : kv.1 = nid <;> simp [h]

theorem executeNode_setSupportsRetry (ex : FlowExecutor) (t : String)
    (b : Bool) (node_type : String) (context : ExecutionContext) :
    FlowExecutor.executeNode
        { node_registry := ex.node_registry.setSupportsRetry t b,
          max_concurrent_nodes := ex.max_concurrent_nodes }
        node_type context =
      ex.executeNode node_type context := by
  unfold FlowExecutor.executeNode BasicNodeRegistry.getNode
    BasicNodeRegistry.setSupportsRetry lookupKey
  rw [find?_map_keyfix ex.node_registry.nodes _
    (fun kv => by by_cases h : kv.1 = t <;> simp [h]) node_type]
  cases hf : ex.node_registry.nodes.find? (fun kv => kv.1 == node_type) with
  | none => rfl
  | some kv =>
      dsimp only [Option.map_some]
      by_cases h : kv.1 = t <;> simp [h]

theorem batchOutcomes_retry_invariant (ex : FlowExecutor) (flow : Flow)
    (nid t : String) (rc : Option RetryConfig) (b : Bool) (eid : Nat)
    (vars results : List (String × Json)) (batch : List String) :
    batchOutcomes
        { node_registry := ex.node_registry.setSupportsRetry t b,
          max_concurrent_nodes := ex.max_concurrent_nodes }
        (flow.setRetryConfig nid rc) eid vars results batch =
      batchOutcomes ex flow eid vars results batch := by
  unfold batchOutcomes
  apply List.map_congr_left
  intro node_id _
  have htype := (setRetryConfig_node_type_params flow nid rc node_id).1
  have hparams := (setRetryConfig_node_type_params flow nid rc node_id).2
  dsimp only
  rw [executeNode_setSupportsRetry]
  unfold FlowExecutor.resolveNodeInput
  rw [htype, hparams]
  rfl

theorem buildExecutionOrder_retry_invariant (ex : FlowExecutor) (flow : Flow)
    (nid t : String) (rc : Option RetryConfig) (b : Bool) :
    FlowExecutor.buildExecutionOrder
        { node_registry := ex.node_registry.setSupportsRetry t b,
          max_concurrent_nodes := ex.max_concurrent_nodes }
        (flow.setRetryConfig nid rc) =
      ex.buildExecutionOrder flow := by
  unfold FlowExecutor.buildExecutionOrder
  have hkeys : (flow.setRetryConfig nid rc).keys = flow.keys := by
    unfold Flow.keys
    exact setRetryConfig_keys flow nid rc
  have hlen : (flow.setRetryConfig nid rc).nodes.length = flow.nodes.length := by
    unfold Flow.setRetryConfig
    simp
  have hdeg : initInDegree (flow.setRetryConfig nid rc) = initInDegree flow := rfl
  have hadj : adjacency (flow.setRetryConfig nid rc) = adjacency flow := rfl
  have hedg : (flow.setRetryConfig nid rc).edges.length = flow.edges.length := rfl
  rw [hkeys, hlen, hdeg, hadj, hedg]

theorem runWaves_retry_invariant (ex : FlowExecutor) (flow : Flow)
    (nid t : String) (rc : Option RetryConfig) (b : Bool) (eid : Nat)
    (vars : List (String × Json)) :
    ∀ (waves : List (List String)) (results : List (String × Json)),
      FlowExecutor.runWaves
          { node_registry := ex.node_registry.setSupportsRetry t b,
            max_concurrent_nodes := ex.max_concurrent_nodes }
          (flow.setRetryConfig nid rc) eid vars waves results =
        ex.runWaves flow eid vars waves results := by
  intro waves
  induction waves with
  | nil => intro results; rfl
  | cons batch rest ih =>
      intro results
      unfold FlowExecutor.runWaves
      rw [batchOutcomes_retry_invariant]
      cases hc : collectBatch (batchOutcomes ex flow eid vars results batch)
          results with
      | error e => rfl
      | ok node_results' =>
          dsimp only
          rw [ih node_results']

/-- C5 (amended): the executor ignores retry configuration entirely: the
result of `execute_flow` is unchanged by replacing any node's `retry_config`
and any registered implementation's `supports_retry` flag — `execute` runs
exactly once per node (no sleeps, no `retry_count`), so the spec's retry loop
does not exist. -/
theorem executeFlow_ignores_retry_config (ex : FlowExecutor) (flow : Flow)
    (nid t : String) (rc : Option RetryConfig) (b : Bool) (input : Json)
    (trigger : ExecutionTrigger) (eid now elapsed : Nat) :
    FlowExecutor.executeFlow
        { node_registry := ex.node_registry.setSupportsRetry t b,
          max_concurrent_nodes := ex.max_concurrent_nodes }
        (flow.setRetryConfig nid rc) input trigger eid now elapsed =
      ex.executeFlow flow input trigger eid now elapsed := by
  have hint : FlowExecutor.executeFlowInternal
      { node_registry := ex.node_registry.setSupportsRetry t b,
        max_concurrent_nodes := ex.max_concurrent_nodes }
      (flow.setRetryConfig nid rc) input eid =
      ex.executeFlowInternal flow input eid := by
    unfold FlowExecutor.executeFlowInternal
    rw [buildExecutionOrder_retry_invariant]
    cases hb : ex.buildExecutionOrder flow with
    | error e => rfl
    | ok execution_order =>
        dsimp only
        rw [runWaves_retry_invariant]
        cases hr : ex.runWaves flow eid (insertKey [] "input" input)
            execution_order [] with
        | mk res trace =>
            cases res with
            | error e => rfl
            | ok node_results =>
                dsimp only
                rw [show (flow.setRetryConfig nid rc).nodes.map Prod.fst =
                  flow.nodes.map Prod.fst from setRetryConfig_keys flow nid rc]
  unfold FlowExecutor.executeFlow
  rw [hint]
  rfl

/-! ### C6 — Kahn wave ordering: arithmetic of one batch step -/

theorem processNeighbors_deg (ns : List String) :
    ∀ (deg : String → Nat) (v : String),
      (processNeighbors deg ns).1 v = deg v - ns.count v := by
  induction ns with
  | nil => intro deg v; simp [processNeighbors]
  | cons u rest ih =>
      intro deg v
      simp only [processNeighbors]
      rw [ih]
      by_cases h : v = u
      · subst h
        simp only [if_pos rfl, List.count_cons, beq_self_eq_true, if_true]
        omega
      · simp only [if_neg h, List.count_cons]
        have : (u == v) = false := by simp [Ne.symm h]
        rw [this]
        simp

theorem processNeighbors_pushed (ns : List String) :
    ∀ (deg : String → Nat) (v : String), (∀ w, ns.count w ≤ deg w) →
      ((processNeighbors deg ns).2).count v =
        if 0 < deg v ∧ ns.count v = deg v then 1 else 0 := by
  induction ns with
  | nil =>
      intro deg v _
      simp only [processNeighbors, List.count_nil]
      split
      · next hc => omega
      · rfl
  | cons u rest ih =>
      intro deg v h
      have hdu : 1 ≤ deg u := by
        have := h u
        simp only [List.count_cons, beq_self_eq_true, if_true] at this
        omega
      have h' : ∀ w, rest.count w ≤
          (fun x => if x = u then deg u - 1 else deg x) w := by
        intro w
        have hw := h w
        by_cases hwu : w = u
        · subst hwu
          simp only [List.count_cons, beq_self_eq_true, if_true] at hw
          simp only [eq_self_iff_true, if_true]
          omega
        · have : (u == w) = false := by simp [Ne.symm hwu]
          simp only [List.count_cons, this, if_false] at hw
          simp only [if_neg hwu]
          omega
      simp only [processNeighbors]
      rw [List.count_append, ih _ v h']
      by_cases hv : v = u
      · subst hv
        have hrest := h' v
        simp only [eq_self_iff_true, if_true] at hrest ⊢
        have hcount : (v :: rest).count v = rest.count v + 1 := by
          simp [List.count_cons]
        rw [hcount]
        by_cases hd : deg v - 1 = 0
        · rw [if_pos hd]
          have hone : ([v] : List String).count v = 1 := by simp
          rw [hone]
          split_ifs <;> omega
        · rw [if_neg hd]
          simp only [List.count_nil]
          split_ifs <;> omega
      · have hbeq : (u == v) = false := by simp [Ne.symm hv]
        have hcount : (v :: rest).count v = rest.count v + 1 := by
          simp [List.count_cons]
        simp only [if_neg hv, List.count_cons, hbeq, if_false]
        have hhead : (if deg u - 1 = 0 then [u] else []).count v = 0 := by
          split
          · simp [List.count_cons, hbeq]
          · simp
        rw [hhead]
        simp

theorem neighborCount_cons (adjf : String → List String) (u : String)
    (rest : List String) (v : String) :
    neighborCount adjf (u :: rest) v =
      (adjf u).count v + neighborCount adjf rest v := by
  unfold neighborCount
  rw [List.flatMap_cons, List.count_append]

theorem processBatch_deg (adjf : String → List String) (batch : List String) :
    ∀ (deg : String → Nat) (v : String),
      (processBatch adjf deg batch).1 v =
        deg v - neighborCount adjf batch v := by
  induction batch with
  | nil => intro deg v; simp [processBatch, neighborCount]
  | cons u rest ih =>
      intro deg v
      simp only [processBatch]
      rw [ih, processNeighbors_deg, neighborCount_cons]
      omega

theorem processBatch_pushed (adjf : String → List String) (batch : List String) :
    ∀ (deg : String → Nat) (v : String),
      (∀ w, neighborCount adjf batch w ≤ deg w) →
      ((processBatch adjf deg batch).2).count v =
        if 0 < deg v ∧ neighborCount adjf batch v = deg v then 1 else 0 := by
  induction batch with
  | nil =>
      intro deg v _
      simp only [processBatch, List.count_nil, neighborCount, List.flatMap_nil]
      split
      · next hc => omega
      · rfl
  | cons u rest ih =>
      intro deg v h
      have hhead : ∀ w, (adjf u).count w ≤ deg w := by
        intro w
        have := h w
        rw [neighborCount_cons] at this
        omega
      have h' : ∀ w, neighborCount adjf rest w ≤
          (processNeighbors deg (adjf u)).1 w := by
        intro w
        rw [processNeighbors_deg]
        have := h w
        rw [neighborCount_cons] at this
        omega
      simp only [processBatch]
      rw [List.count_append, ih _ v h',
        processNeighbors_pushed (adjf u) deg v hhead, processNeighbors_deg,
        neighborCount_cons]
      have hle := h v
      rw [neighborCount_cons] at hle
      split_ifs <;> omega

theorem processBatch_pushed_count_le_one (adjf : String → List String)
    (batch : List String) (deg : String → Nat) (v : String)
    (h : ∀ w, neighborCount adjf batch w ≤ deg w) :
    ((processBatch adjf deg batch).2).count v ≤ 1 := by
  rw [processBatch_pushed adjf batch deg v h]
  split_ifs <;> omega

theorem processBatch_pushed_nodup (adjf : String → List String)
    (batch : List String) (deg : String → Nat)
    (h : ∀ w, neighborCount adjf batch w ≤ deg w) :
    ((processBatch adjf deg batch).2).Nodup := by
  rw [List.nodup_iff_count_le_one]
  intro v
  exact processBatch_pushed_count_le_one adjf batch deg v h

theorem processBatch_pushed_mem (adjf : String → List String)
    (batch : List String) (deg : String → Nat) (v : String)
    (h : ∀ w, neighborCount adjf batch w ≤ deg w) :
    v ∈ (processBatch adjf deg batch).2 ↔
      0 < deg v ∧ neighborCount adjf batch v = deg v := by
  rw [← List.count_pos_iff, processBatch_pushed adjf batch deg v h]
  split_ifs with hc
  · simpa using hc
  · simpa using hc

/-! ### C6 — bridges between neighbor counts and edge counts -/

theorem contains_true_iff (l : List String) (x : String) :
    l.contains x = true ↔ x ∈ l :=
  List.elem_iff

theorem countP_or_disjoint {α : Type} (l : List α) (p q : α → Bool)
    (h : ∀ x ∈ l, ¬(p x = true ∧ q x = true)) :
    l.countP (fun x => p x || q x) = l.countP p + l.countP q := by
  induction l with
  | nil => rfl
  | cons a rest ih =>
      simp only [List.countP_cons, Bool.or_eq_true]
      rw [ih (fun x hx => h x (List.mem_cons_of_mem a hx))]
      by_cases hp : p a = true
      · by_cases hq : q a = true
        · exact absurd ⟨hp, hq⟩ (h a (List.mem_cons_self a rest))
        · simp only [hp, hq]
          simp
          omega
      · by_cases hq : q a = true
        · simp only [Bool.not_eq_true] at hp
          simp only [hp, hq]
          simp
          omega
        · simp only [Bool.not_eq_true] at hp hq
          simp only [hp, hq]
          simp

theorem count_map_target (E : List FlowEdge) (u v : String) :
    ((E.filter (fun e => e.source_node == u)).map
      (fun e => e.target_node)).count v =
      E.countP (fun e => e.source_node == u && e.target_node == v) := by
  induction E with
  | nil => rfl
  | cons e rest ih =>
      rw [List.countP_cons]
      by_cases hs : e.source_node = u
      · rw [List.filter_cons_of_pos (by simp [hs])]
        rw [List.map_cons, List.count_cons, ih]
        by_cases ht : e.target_node = v <;> simp [hs, ht]
      · rw [List.filter_cons_of_neg (by simp [hs])]
        rw [ih]
        simp [hs]

theorem adjacency_count (flow : Flow) (u v : String) :
    (adjacency flow u).count v =
      flow.edges.countP (fun e => e.source_node == u && e.target_node == v) :=
  count_map_target flow.edges u v

theorem neighborCount_eq_cntFrom (flow : Flow) :
    ∀ (Q : List String), Q.Nodup → ∀ v,
      neighborCount (adjacency flow) Q v = cntFrom flow.edges Q v := by
  intro Q
  induction Q with
  | nil =>
      intro _ v
      unfold neighborCount cntFrom
      simp only [List.flatMap_nil, List.count_nil]
      symm
      rw [List.countP_eq_zero]
      intro e _
      simp
  | cons u rest ih =>
      intro hnd v
      rw [neighborCount_cons, adjacency_count,
        ih (List.nodup_cons.mp hnd).2 v]
      unfold cntFrom
      have hnotin : u ∉ rest := (List.nodup_cons.mp hnd).1
      have hpoint : ∀ e : FlowEdge, (e.target_node == v &&
          (u :: rest).contains e.source_node) =
          ((e.target_node == v && e.source_node == u) ||
           (e.target_node == v && rest.contains e.source_node)) := by
        intro e
        rw [List.contains_eq_any_beq, List.any_cons,
          ← List.contains_eq_any_beq, Bool.and_or_distrib_left]
      have hsplit : flow.edges.countP (fun e => e.target_node == v &&
          (u :: rest).contains e.source_node) =
          flow.edges.countP (fun e => e.target_node == v &&
            e.source_node == u) +
          flow.edges.countP (fun e => e.target_node == v &&
            rest.contains e.source_node) := by
        rw [List.countP_congr (fun e _ => by rw [hpoint e])]
        apply countP_or_disjoint
        intro e _ hcontra
        rcases hcontra with ⟨h1, h2⟩
        simp only [Bool.and_eq_true] at h1 h2
        have hse : e.source_node = u := by simpa using h1.2
        exact hnotin (hse ▸ (contains_true_iff _ _).mp h2.2)
      rw [hsplit]
      congr 1
      apply List.countP_congr
      intro e _
      rw [Bool.and_comm]

theorem pendIn_split (E : List FlowEdge) (S Q : List String)
    (hdisj : ∀ s ∈ Q, s ∉ S) (v : String) :
    pendIn E S v = cntFrom E Q v + pendIn E (S ++ Q) v := by
  unfold pendIn cntFrom
  rw [← countP_or_disjoint]
  · apply List.countP_congr
    intro e _
    by_cases ht : e.target_node = v
    · by_cases hq : e.source_node ∈ Q
      · have h1 : Q.contains e.source_node = true :=
          (contains_true_iff _ _).mpr hq
        have h2 : S.contains e.source_node = false := by
          rw [Bool.eq_false_iff]
          intro hc
          exact hdisj _ hq ((contains_true_iff _ _).mp hc)
        have h3 : (S ++ Q).contains e.source_node = true := by
          rw [contains_true_iff]
          exact List.mem_append.mpr (Or.inr hq)
        have hd := hdisj _ hq
        simp [ht, h1, h2, h3]
        tauto
      · have h1 : Q.contains e.source_node = false := by
          rw [Bool.eq_false_iff]
          intro hc
          exact hq ((contains_true_iff _ _).mp hc)
        by_cases hs : e.source_node ∈ S
        · have h2 : S.contains e.source_node = true :=
            (contains_true_iff _ _).mpr hs
          have h3 : (S ++ Q).contains e.source_node = true := by
            rw [contains_true_iff]
            exact List.mem_append.mpr (Or.inl hs)
          simp [ht, h1, h2, h3]
          tauto
        · have h2 : S.contains e.source_node = false := by
            rw [Bool.eq_false_iff]
            intro hc
            exact hs ((contains_true_iff _ _).mp hc)
          have h3 : (S ++ Q).contains e.source_node = false := by
            rw [Bool.eq_false_iff]
            intro hc
            rcases List.mem_append.mp ((contains_true_iff _ _).mp hc) with
              hm | hm
            · exact hs hm
            · exact hq hm
          simp [ht, h1, h2, h3]
          tauto
    · have htf : (e.target_node == v) = false := by simp [ht]
      simp [htf]
  · intro e _ hcontra
    rcases hcontra with ⟨h1, h2⟩
    simp only [Bool.and_eq_true] at h1 h2
    have hq : e.source_node ∈ Q := (contains_true_iff _ _).mp h1.2
    have h3 := h2.2
    simp only [Bool.not_eq_true'] at h3
    rw [Bool.eq_false_iff] at h3
    exact h3 ((contains_true_iff _ _).mpr (List.mem_append.mpr (Or.inr hq)))

theorem cntFrom_eq_zero_of_no_source (E : List FlowEdge) (Q : List String)
    (v : String) (h : ∀ e ∈ E, e.target_node = v → e.source_node ∉ Q) :
    cntFrom E Q v = 0 := by
  unfold cntFrom
  rw [List.countP_eq_zero]
  intro e he hc
  simp only [Bool.and_eq_true, beq_iff_eq] at hc
  exact h e he hc.1 ((contains_true_iff _ _).mp hc.2)

theorem cntFrom_le_pendIn (E : List FlowEdge) (S Q : List String)
    (hdisj : ∀ s ∈ Q, s ∉ S) (v : String) :
    cntFrom E Q v ≤ pendIn E S v := by
  unfold cntFrom pendIn
  apply List.countP_mono_left
  intro e _ he
  simp only [Bool.and_eq_true] at he ⊢
  refine ⟨he.1, ?_⟩
  cases hS : S.contains e.source_node with
  | false => simp
  | true =>
      exact absurd ((contains_true_iff _ _).mp hS)
        (hdisj _ ((contains_true_iff _ _).mp he.2))

theorem cntFrom_pos_target (E : List FlowEdge) (Q : List String) (v : String)
    (h : 0 < cntFrom E Q v) :
    ∃ e ∈ E, e.target_node = v ∧ e.source_node ∈ Q := by
  unfold cntFrom at h
  rw [List.countP_pos_iff] at h
  obtain ⟨e, he, hp⟩ := h
  simp only [Bool.and_eq_true, beq_iff_eq] at hp
  exact ⟨e, he, hp.1, (contains_true_iff _ _).mp hp.2⟩

theorem initInDegree_eq_pendIn (flow : Flow) (v : String) :
    initInDegree flow v = pendIn flow.edges [] v := by
  unfold initInDegree pendIn
  rw [← List.countP_eq_length_filter]
  apply List.countP_congr
  intro e _
  simp

theorem pendIn_eq_zero_sources (E : List FlowEdge) (S : List String)
    (v : String) (h : pendIn E S v = 0) :
    ∀ e ∈ E, e.target_node = v → e.source_node ∈ S := by
  unfold pendIn at h
  rw [List.countP_eq_zero] at h
  intro e he ht
  have hne := h e he
  by_contra hs
  have hcontains : S.contains e.source_node = false := by
    rw [Bool.eq_false_iff]
    intro hc
    exact hs ((contains_true_iff _ _).mp hc)
  exact hne (by simp [ht, hs])

theorem mem_take_flatten_mem_flatten (L : List (List String)) (j : Nat)
    (v : String) (h : v ∈ (L.take j).flatten) : v ∈ L.flatten := by
  rw [List.mem_flatten] at h ⊢
  obtain ⟨l, hl, hv⟩ := h
  exact ⟨l, List.take_subset j L hl, hv⟩

theorem mem_flatten_index (L : List (List String)) (v : String)
    (h : v ∈ L.flatten) : ∃ j, ∃ hj : j < L.length, v ∈ L.get ⟨j, hj⟩ := by
  rw [List.mem_flatten] at h
  obtain ⟨l, hl, hv⟩ := h
  rw [List.mem_iff_get] at hl
  obtain ⟨⟨j, hj⟩, rfl⟩ := hl
  exact ⟨j, hj, hv⟩

/-- One iteration of the Kahn `while` loop preserves the invariant: the
current queue is emitted as a wave and the freshly pushed nodes form the next
queue. -/
theorem kahnInv_step (flow : Flow)
    (hwfe : ∀ e ∈ flow.edges,
      e.source_node ∈ flow.keys ∧ e.target_node ∈ flow.keys)
    (deg : String → Nat) (queue : List String) (acc : List (List String))
    (hinv : KahnInv flow.keys flow.edges deg queue acc) :
    KahnInv flow.keys flow.edges
      (processBatch (adjacency flow) deg queue).1
      (processBatch (adjacency flow) deg queue).2
      (acc ++ [queue]) := by
  have hflat : (acc ++ [queue]).flatten = acc.flatten ++ queue := by
    rw [List.flatten_append]
    simp
  have hQnodup : queue.Nodup := (List.nodup_append.mp hinv.nodup).2.1
  have hSQdisj := (List.nodup_append.mp hinv.nodup).2.2
  have hdisjQS : ∀ s ∈ queue, s ∉ acc.flatten := fun s hq hS => hSQdisj hS hq
  have hS_sources : ∀ w ∈ acc.flatten, ∀ e ∈ flow.edges,
      e.target_node = w → e.source_node ∈ acc.flatten := by
    intro w hw e he ht
    obtain ⟨j, hj, hmem⟩ := mem_flatten_index acc w hw
    have := hinv.topo e he j hj (by rw [ht]; exact hmem)
    exact mem_take_flatten_mem_flatten acc j _ this
  have hcnt_le : ∀ w, neighborCount (adjacency flow) queue w ≤ deg w := by
    intro w
    rw [neighborCount_eq_cntFrom flow queue hQnodup w]
    by_cases hw : w ∈ flow.keys
    · by_cases hwS : w ∈ acc.flatten
      · have h0 : cntFrom flow.edges queue w = 0 := by
          apply cntFrom_eq_zero_of_no_source
          intro e he ht hsQ
          exact hdisjQS _ hsQ (hS_sources w hwS e he ht)
        rw [h0]
        exact Nat.zero_le _
      · rw [hinv.deg_eq w hw hwS]
        exact cntFrom_le_pendIn flow.edges acc.flatten queue hdisjQS w
    · have h0 : cntFrom flow.edges queue w = 0 := by
        apply cntFrom_eq_zero_of_no_source
        intro e he ht
        exact ((hw (ht ▸ (hwfe e he).2)).elim)
      rw [h0]
      exact Nat.zero_le _
  have hpmem : ∀ v, v ∈ (processBatch (adjacency flow) deg queue).2 ↔
      0 < deg v ∧ neighborCount (adjacency flow) queue v = deg v :=
    fun v => processBatch_pushed_mem (adjacency flow) queue deg v hcnt_le
  have hpushed_K : ∀ v ∈ (processBatch (adjacency flow) deg queue).2,
      v ∈ flow.keys := by
    intro v hv
    obtain ⟨hpos, hcnt⟩ := (hpmem v).mp hv
    have hpos' : 0 < cntFrom flow.edges queue v := by
      rw [← neighborCount_eq_cntFrom flow queue hQnodup v, hcnt]
      exact hpos
    obtain ⟨e, he, ht, _⟩ := cntFrom_pos_target flow.edges queue v hpos'
    exact ht ▸ (hwfe e he).2
  have hpushed_not_S : ∀ v ∈ (processBatch (adjacency flow) deg queue).2,
      v ∉ acc.flatten := by
    intro v hv hvS
    obtain ⟨hpos, hcnt⟩ := (hpmem v).mp hv
    have hpos' : 0 < cntFrom flow.edges queue v := by
      rw [← neighborCount_eq_cntFrom flow queue hQnodup v, hcnt]
      exact hpos
    obtain ⟨e, he, ht, hsQ⟩ := cntFrom_pos_target flow.edges queue v hpos'
    exact hdisjQS _ hsQ (hS_sources v hvS e he ht)
  have hpushed_not_Q : ∀ v ∈ (processBatch (adjacency flow) deg queue).2,
      v ∉ queue := by
    intro v hv hvQ
    obtain ⟨hpos, _⟩ := (hpmem v).mp hv
    have hvK : v ∈ flow.keys := hinv.sub_queue v hvQ
    have hvS : v ∉ acc.flatten := hpushed_not_S v hv
    have hdeg0 : deg v = 0 := by
      rw [hinv.deg_eq v hvK hvS]
      exact hinv.queue_ready v hvQ
    omega
  refine ⟨?_, ?_, ?_, ?_, ?_, ?_⟩
  · -- nodup
    rw [hflat]
    rw [List.append_assoc]
    rw [List.nodup_append]  -- acc.flatten nodup, (queue ++ pushed) nodup, disjoint
    refine ⟨(List.nodup_append.mp hinv.nodup).1, ?_, ?_⟩
    · rw [List.nodup_append]
      refine ⟨hQnodup,
        processBatch_pushed_nodup (adjacency flow) queue deg hcnt_le, ?_⟩
      intro a haQ haP
      exact hpushed_not_Q a haP haQ
    · intro a haS haQP
      rcases List.mem_append.mp haQP with hm | hm
      · exact hSQdisj haS hm
      · exact hpushed_not_S a hm haS
  · -- sub_acc
    intro v hv
    rw [hflat] at hv
    rcases List.mem_append.mp hv with hm | hm
    · exact hinv.sub_acc v hm
    · exact hinv.sub_queue v hm
  · -- sub_queue
    exact hpushed_K
  · -- deg_eq
    intro v hvK hvS'
    rw [hflat] at hvS'
    have hvS : v ∉ acc.flatten := fun hc => hvS' (List.mem_append.mpr (.inl hc))
    have hvQ : v ∉ queue := fun hc => hvS' (List.mem_append.mpr (.inr hc))
    rw [processBatch_deg, hflat]
    have hsplit := pendIn_split flow.edges acc.flatten queue hdisjQS v
    have hdeg := hinv.deg_eq v hvK hvS
    have hcnt := neighborCount_eq_cntFrom flow queue hQnodup v
    omega
  · -- queue_ready
    intro v hv
    obtain ⟨hpos, hcnt⟩ := (hpmem v).mp hv
    have hvK : v ∈ flow.keys := hpushed_K v hv
    have hvS : v ∉ acc.flatten := hpushed_not_S v hv
    have hsplit := pendIn_split flow.edges acc.flatten queue hdisjQS v
    have hdeg := hinv.deg_eq v hvK hvS
    have hcnt' := neighborCount_eq_cntFrom flow queue hQnodup v
    rw [hflat]
    omega
  · -- topo
    intro e he j hj htarget
    have hlen : (acc ++ [queue]).length = acc.length + 1 := by simp
    rw [hlen] at hj
    by_cases hj2 : j < acc.length
    · have hget : (acc ++ [queue]).get ⟨j, by simp; omega⟩ =
          acc.get ⟨j, hj2⟩ := by
        simp only [List.get_eq_getElem]
        exact List.getElem_append_left hj2
      rw [hget] at htarget
      have := hinv.topo e he j hj2 htarget
      have htake : (acc ++ [queue]).take j = acc.take j :=
        List.take_append_of_le_length (Nat.le_of_lt hj2)
      rw [htake]
      exact this
    · have hje : j = acc.length := by omega
      subst hje
      have hget : (acc ++ [queue]).get ⟨acc.length, by simp⟩ = queue := by
        simp only [List.get_eq_getElem]
        rw [List.getElem_append_right (Nat.le_refl _)]
        simp
      rw [hget] at htarget
      have hready := hinv.queue_ready e.target_node htarget
      have hsource := pendIn_eq_zero_sources flow.edges acc.flatten
        e.target_node hready e he rfl
      have htake : (acc ++ [queue]).take acc.length = acc :=
        List.take_left acc [queue]
      rw [htake]
      exact hsource

theorem kahnLoop_out (flow : Flow)
    (hwfe : ∀ e ∈ flow.edges,
      e.source_node ∈ flow.keys ∧ e.target_node ∈ flow.keys) :
    ∀ (fuel : Nat) (deg : String → Nat) (queue : List String)
      (acc : List (List String)),
      KahnInv flow.keys flow.edges deg queue acc →
      TopoOut flow.keys flow.edges
        (kahnLoop (adjacency flow) fuel deg queue acc) := by
  intro fuel
  induction fuel with
  | zero =>
      intro deg queue acc hinv
      have hkl : kahnLoop (adjacency flow) 0 deg queue acc = acc := rfl
      rw [hkl]
      exact ⟨hinv.nodup.of_append_left, hinv.sub_acc, hinv.topo⟩
  | succ fuel ih =>
      intro deg queue acc hinv
      by_cases hq : queue.isEmpty
      · have hkl : kahnLoop (adjacency flow) (fuel + 1) deg queue acc = acc := by
          simp only [kahnLoop]
          rw [if_pos hq]
        rw [hkl]
        exact ⟨hinv.nodup.of_append_left, hinv.sub_acc, hinv.topo⟩
      · have hkl : kahnLoop (adjacency flow) (fuel + 1) deg queue acc =
            kahnLoop (adjacency flow) fuel
              (processBatch (adjacency flow) deg queue).1
              (processBatch (adjacency flow) deg queue).2 (acc ++ [queue]) := by
          simp only [kahnLoop]
          rw [if_neg hq]
        rw [hkl]
        exact ih _ _ _ (kahnInv_step flow hwfe deg queue acc hinv)

theorem waveIndex_eq_of_mem :
    ∀ (waves : List (List String)), waves.flatten.Nodup →
      ∀ j, ∀ hj : j < waves.length, ∀ v, v ∈ waves.get ⟨j, hj⟩ →
        waveIndex waves v = j := by
  intro waves
  induction waves with
  | nil => intro _ j hj; simp at hj
  | cons w rest ih =>
      intro hnd j hj v hv
      unfold waveIndex
      cases j with
      | zero =>
          have hc : w.contains v = true :=
            (contains_true_iff _ _).mpr (by simpa using hv)
          rw [List.findIdx_cons, hc]
          rfl
      | succ k =>
          have hk : k < rest.length := by simpa using hj
          have hvk : v ∈ rest.get ⟨k, hk⟩ := by simpa using hv
          have hvrest : v ∈ rest.flatten := by
            rw [List.mem_flatten]
            exact ⟨rest.get ⟨k, hk⟩, List.get_mem rest k hk, hvk⟩
          have hnd' : (w ++ rest.flatten).Nodup := by simpa using hnd
          have hnw : v ∉ w := fun hc =>
            List.disjoint_of_nodup_append hnd' hc hvrest
          have hcontains : w.contains v = false := by
            rw [Bool.eq_false_iff]
            intro hc
            exact hnw ((contains_true_iff _ _).mp hc)
          rw [List.findIdx_cons, hcontains]
          have := ih hnd'.of_append_right k hk v hvk
          unfold waveIndex at this
          simp only [cond_false]
          omega

/-- C6: any wave ordering `build_execution_order` returns for a well-formed
flow is a valid topological order — for every edge `(u,v)` the wave index of
`u` is strictly below that of `v` — and every node of the flow appears in
exactly one wave.  (The hypothesis that the planner returns `Ok` is the
code's own acyclicity check.) -/
theorem build_execution_order_topological (ex : FlowExecutor) (flow : Flow)
    (hwf : flow.WellFormed) (waves : List (List String))
    (hok : ex.buildExecutionOrder flow = .ok waves) :
    (∀ e ∈ flow.edges,
      waveIndex waves e.source_node < waveIndex waves e.target_node) ∧
    (∀ n ∈ flow.keys, waves.flatten.count n = 1) := by
  obtain ⟨hkeys, hwfe⟩ := hwf
  unfold FlowExecutor.buildExecutionOrder at hok
  dsimp only at hok
  split at hok
  case isFalse => exact absurd hok (by simp)
  case isTrue hcond =>
    have hw : kahnLoop (adjacency flow)
        (flow.nodes.length + flow.edges.length + 1) (initInDegree flow)
        (flow.keys.filter (fun v => initInDegree flow v == 0)) [] = waves := by
      injection hok
    have hinv0 : KahnInv flow.keys flow.edges (initInDegree flow)
        (flow.keys.filter (fun v => initInDegree flow v == 0)) [] := by
      refine ⟨?_, ?_, ?_, ?_, ?_, ?_⟩
      · simpa using List.Nodup.filter _ hkeys
      · intro v hv
        simp at hv
      · intro v hv
        exact (List.mem_filter.mp hv).1
      · intro v _ _
        rw [initInDegree_eq_pendIn]
        rfl
      · intro v hv
        have h0 : initInDegree flow v = 0 := by
          simpa using (List.mem_filter.mp hv).2
        have := initInDegree_eq_pendIn flow v
        simp only [List.flatten_nil]
        omega
      · intro e _ j hj
        simp at hj
    have hout := kahnLoop_out flow hwfe
      (flow.nodes.length + flow.edges.length + 1) _ _ _ hinv0
    rw [hw] at hout hcond
    obtain ⟨hnodup, hsub, htopo⟩ := hout
    have hlen : waves.flatten.length = flow.keys.length := by
      rw [List.length_flatten]
      have hc : (waves.map List.length).sum = flow.nodes.length := by
        simpa using hcond
      rw [hc]
      unfold Flow.keys
      rw [List.length_map]
    have hperm : waves.flatten.Perm flow.keys := by
      apply List.Subperm.perm_of_length_le
      · exact List.subperm_of_subset hnodup (fun v hv => hsub v hv)
      · omega
    have hmemK : ∀ n ∈ flow.keys, n ∈ waves.flatten := fun n hn =>
      hperm.mem_iff.mpr hn
    constructor
    · intro e he
      obtain ⟨j, hj, htj⟩ := mem_flatten_index waves _ (hmemK _ (hwfe e he).2)
      have hsrc := htopo e he j hj htj
      obtain ⟨i, hi', hsi⟩ := mem_flatten_index (waves.take j) _ hsrc
      have hlt : i < j := by
        have := hi'
        simp only [List.length_take] at this
        omega
      have hi : i < waves.length := by
        have := hi'
        simp only [List.length_take] at this
        omega
      have hsi' : e.source_node ∈ waves.get ⟨i, hi⟩ := by
        rw [List.get_eq_getElem] at hsi ⊢
        rw [List.getElem_take] at hsi
        exact hsi
      rw [waveIndex_eq_of_mem waves hnodup j hj _ htj,
        waveIndex_eq_of_mem waves hnodup i hi _ hsi']
      exact hlt
    · intro n hn
      exact List.count_eq_one_of_mem hnodup (hmemK n hn)

/-- C6 witness: the theorem applied to the two-node chain `a → b`, whose
planner output is `[[a], [b]]`. -/
theorem build_execution_order_topological_witness :
    waveIndex [["a"], ["b"]] "a" < waveIndex [["a"], ["b"]] "b" ∧
    ([["a"], ["b"]] : List (List String)).flatten.count "a" = 1 :=
  ⟨(build_execution_order_topological (FlowExecutor.new BasicNodeRegistry.new)
      flowChain (by decide) [["a"], ["b"]] rfl).1
      (mkEdge "e1" "a" "b") (by decide),
   (build_execution_order_topological (FlowExecutor.new BasicNodeRegistry.new)
      flowChain (by decide) [["a"], ["b"]] rfl).2 "a" (by decide)⟩

end GhostFlow
